import Mathlib

/-!
Verification of the IPA translator core (`servers/ipa-translator/main.py`).

Python strings are modelled as lists of Unicode code points (`List Char`),
Python dicts as association lists with first-match lookup, and the file
system backing the per-language dictionaries as a partial map from file
name to parsed dictionary.  Every function below is a direct translation
of the correspondingly named Python function.
-/

namespace IpaTranslator

/-- A Python string: a finite sequence of Unicode code points. -/
abbrev PyStr := List Char

/-- View a Lean string literal as a `PyStr`. -/
def str (s : String) : PyStr := s.data

/-- An IPA dictionary: mapping from token to IPA transcription
(the JSON files under `./data/`). -/
abbrev Dict := List (PyStr × PyStr)

/-- Python dict lookup (`d[k]` returning `None`-like absence for `k not in d`).
Association lists with distinct keys model Python dicts; lookup takes the
first matching key. -/
def alookup {α β : Type} [DecidableEq α] : List (α × β) → α → Option β
  | [], _ => none
  | (k, v) :: rest, x => if x = k then some v else alookup rest x

/-- Fuel-driven worker for Python `str.replace`.  Each step either consumes a
match of `p` (emitting `r`) or copies one character; `fuel ≥ s.length` makes
the fuel bound irrelevant (`replaceAllGo_fuel`). -/
def replaceAllGo (p r : PyStr) : Nat → PyStr → PyStr
  | _, [] => []
  | 0, s => s
  | fuel + 1, c :: cs =>
    if p.isPrefixOf (c :: cs) && !p.isEmpty then
      r ++ replaceAllGo p r fuel ((c :: cs).drop p.length)
    else
      c :: replaceAllGo p r fuel cs

/-- Python `str.replace(p, r)`: replace every non-overlapping occurrence of
`p` by `r`, scanning left to right.  (All patterns in the source are
nonempty; the `p.isEmpty` guard is never hit there.) -/
def replaceAll (p r : PyStr) (s : PyStr) : PyStr := replaceAllGo p r s.length s

theorem replaceAllGo_fuel (p r : PyStr) :
    ∀ (f1 : Nat) (s : PyStr) (f2 : Nat), s.length ≤ f1 → s.length ≤ f2 →
      replaceAllGo p r f1 s = replaceAllGo p r f2 s := by
  intro f1
  induction f1 with
  | zero =>
    intro s f2 h1 _
    have hs : s = [] := List.length_eq_zero.mp (Nat.le_zero.mp h1)
    subst hs
    cases f2 <;> rfl
  | succ n ih =>
    intro s f2 h1 h2
    cases s with
    | nil => cases f2 <;> rfl
    | cons c cs =>
      cases f2 with
      | zero => exact absurd h2 (by simp)
      | succ m =>
        simp only [replaceAllGo]
        by_cases hcond : (p.isPrefixOf (c :: cs) && !p.isEmpty) = true
        · rw [if_pos hcond, if_pos hcond]
          have hp : p ≠ [] := by
            rcases Bool.and_eq_true_iff.mp hcond with ⟨_, hne⟩
            simpa using hne
          have hplen : 1 ≤ p.length := List.length_pos.mpr hp
          have hlen : ((c :: cs).drop p.length).length ≤ cs.length := by
            simp only [List.length_drop, List.length_cons]
            omega
          congr 1
          exact ih _ m (le_trans hlen (Nat.le_of_succ_le_succ h1))
            (le_trans hlen (Nat.le_of_succ_le_succ h2))
        · rw [if_neg hcond, if_neg hcond]
          congr 1
          exact ih cs m (Nat.le_of_succ_le_succ h1) (Nat.le_of_succ_le_succ h2)

theorem replaceAll_nil (p r : PyStr) : replaceAll p r [] = [] := rfl

theorem replaceAll_cons (p r : PyStr) (c : Char) (cs : PyStr) :
    replaceAll p r (c :: cs) =
      if p.isPrefixOf (c :: cs) && !p.isEmpty then
        r ++ replaceAll p r ((c :: cs).drop p.length)
      else
        c :: replaceAll p r cs := by
  show replaceAllGo p r (c :: cs).length (c :: cs) = _
  simp only [List.length_cons, replaceAllGo]
  by_cases hcond : (p.isPrefixOf (c :: cs) && !p.isEmpty) = true
  · rw [if_pos hcond, if_pos hcond]
    have hp : p ≠ [] := by
      rcases Bool.and_eq_true_iff.mp hcond with ⟨_, hne⟩
      simpa using hne
    have hplen : 1 ≤ p.length := List.length_pos.mpr hp
    congr 1
    apply replaceAllGo_fuel
    · simp only [List.length_drop, List.length_cons]; omega
    · exact le_refl _
  · rw [if_neg hcond, if_neg hcond]
    rfl

theorem alookup_eq_none {α β : Type} [DecidableEq α] (l : List (α × β)) (x : α)
    (h : ∀ kv ∈ l, x ≠ kv.1) : alookup l x = none := by
  induction l with
  | nil => rfl
  | cons kv rest ih =>
    obtain ⟨k, v⟩ := kv
    simp only [alookup]
    rw [if_neg (h (k, v) (List.mem_cons_self _ _))]
    exact ih fun kv hkv => h kv (List.mem_cons_of_mem _ hkv)

/-- Replacing a single-character pattern by a single character is a pointwise
character map. -/
theorem replaceAll_single (a b : Char) (t : PyStr) :
    replaceAll [a] [b] t = t.map (fun c => if c = a then b else c) := by
  induction t with
  | nil => rfl
  | cons c cs ih =>
    rw [replaceAll_cons]
    by_cases hca : c = a
    · subst hca
      simp [List.isPrefixOf, ih]
    · have hfalse : ([a].isPrefixOf (c :: cs) && !(List.isEmpty [a])) = false := by
        simp [List.isPrefixOf]
        intro h
        exact absurd h.symm hca
      rw [hfalse]
      simp [hca, ih]

/-- Replacing a single-character pattern by the empty string filters that
character out. -/
theorem replaceAll_single_empty (a : Char) (t : PyStr) :
    replaceAll [a] [] t = t.filter (fun c => !(c = a : Bool)) := by
  induction t with
  | nil => rfl
  | cons c cs ih =>
    rw [replaceAll_cons]
    by_cases hca : c = a
    · subst hca
      simp [List.isPrefixOf, ih, List.filter]
    · have hfalse : ([a].isPrefixOf (c :: cs) && !(List.isEmpty [a])) = false := by
        simp [List.isPrefixOf]
        intro h
        exact absurd h.symm hca
      rw [hfalse]
      simp [hca, ih, List.filter]

/-- Translation of `_format_ipa_num`: tone glyphs to digits (˥→5, ˧→3, ˨→2,
˩→1), then strip `:`. -/
def _format_ipa_num (txt : PyStr) : PyStr :=
  replaceAll (str ":") (str "")
    (replaceAll (str "˩") (str "1")
      (replaceAll (str "˨") (str "2")
        (replaceAll (str "˧") (str "3")
          (replaceAll (str "˥") (str "5") txt))))

/-- The ordered replacement list of `_format_jyutping`, verbatim from the
source (including its duplicated `("˧˥", "2")` entry). -/
def jyutping_replacements : List (PyStr × PyStr) :=
  [ (str "˥˧", str "1"), (str "˥˥", str "1"),
    (str "˧˥", str "2"), (str "˧˥", str "2"),
    (str "˧˧", str "3"),
    (str "˨˩", str "4"), (str "˩˩", str "4"),
    (str "˩˧", str "5"), (str "˨˧", str "5"),
    (str "˨˨", str "6"),
    (str "k˥", str "k7"), (str "k˧", str "k8"), (str "k˨", str "k9"),
    (str "t˥", str "t7"), (str "t˧", str "t8"), (str "t˨", str "t9"),
    (str "p˥", str "p7"), (str "p˧", str "p8"), (str "p˨", str "p9"),
    (str "˥", str "1"), (str "˧", str "3"), (str "˨", str "6"),
    (str ":", str "") ]

/-- Translation of `_format_jyutping`: apply the replacement list in order. -/
def _format_jyutping (txt : PyStr) : PyStr :=
  jyutping_replacements.foldl (fun t pr => replaceAll pr.1 pr.2 t) txt

/-- Translation of `_format_ipa_org`: no changes. -/
def _format_ipa_org (txt : PyStr) : PyStr := txt

/-- First argument of the `str.maketrans` call in `_preprocess_eng`. -/
def upper_tab : PyStr := str "ABCDEFGHIJKLMNOPQRSTUVWXYZ"

/-- Second argument of the `str.maketrans` call in `_preprocess_eng`. -/
def lower_tab : PyStr := str "abcdefghijklmnopqrstuvwxyz"

/-- The per-character translation performed by
`text.translate(str.maketrans(upper_tab, lower_tab))`. -/
def transChar (c : Char) : Char :=
  match alookup (upper_tab.zip lower_tab) c with
  | some d => d
  | none => c

/-- Translation of `_preprocess_eng`: lower-case A–Z, then remove the
characters `.`, `\n` and `,` (in that order of `replace` calls). -/
def _preprocess_eng (text : PyStr) : PyStr :=
  replaceAll (str ",") (str "")
    (replaceAll (str "\n") (str "")
      (replaceAll (str ".") (str "") (text.map transChar)))

/-- Spec-side character map of the numeric formatter: each tone glyph to its
digit, every other character unchanged. -/
def toneDigit (c : Char) : Char :=
  if c = '˥' then '5'
  else if c = '˧' then '3'
  else if c = '˨' then '2'
  else if c = '˩' then '1'
  else c

/-- C9: applying the `original` output format is the identity function on
strings: `format(original, s) = s` for all `s`. -/
theorem C9_original_identity (s : PyStr) : _format_ipa_org s = s := rfl

/-- C5: the numeric formatter replaces every occurrence of ˥, ˧, ˨, ˩ by the
digits 5, 3, 2, 1, then removes every `:`, altering no other characters; in
particular it maps "t˥a˧:" to "t5a3". -/
theorem C5_numeric_formatter :
    (∀ txt : PyStr,
      _format_ipa_num txt =
        (txt.map toneDigit).filter (fun c => !(c = ':' : Bool))) ∧
    _format_ipa_num (str "t˥a˧:") = str "t5a3" := by
  constructor
  · intro txt
    show replaceAll [':'] []
      (replaceAll ['˩'] ['1']
        (replaceAll ['˨'] ['2']
          (replaceAll ['˧'] ['3']
            (replaceAll ['˥'] ['5'] txt)))) = _
    rw [replaceAll_single, replaceAll_single, replaceAll_single,
        replaceAll_single, replaceAll_single_empty,
        List.map_map, List.map_map, List.map_map]
    congr 1
    apply List.map_congr_left
    intro c _
    by_cases h1 : c = '˥'
    · subst h1; decide
    by_cases h2 : c = '˧'
    · subst h2; decide
    by_cases h3 : c = '˨'
    · subst h3; decide
    by_cases h4 : c = '˩'
    · subst h4; decide
    simp [toneDigit, h1, h2, h3, h4, Function.comp]
  · decide

/-- C6: the preprocessor lower-cases every Latin capital letter (adding 32 to
its code point), removes every period, comma and line break, leaves every
other character unchanged, and is total; e.g. "Hello," becomes "hello". -/
theorem C6_preprocessor :
    (∀ text : PyStr,
      _preprocess_eng text =
        (text.map transChar).filter
          (fun c => !(c = ',' : Bool) && !(c = '\n' : Bool) && !(c = '.' : Bool))) ∧
    (∀ c : Char, 65 ≤ c.toNat → c.toNat ≤ 90 → (transChar c).toNat = c.toNat + 32) ∧
    (∀ c : Char, c.toNat < 65 ∨ 90 < c.toNat → transChar c = c) ∧
    _preprocess_eng (str "Hello,") = str "hello" ∧
    _preprocess_eng [] = [] := by
  refine ⟨?_, ?_, ?_, by decide, rfl⟩
  · intro text
    show replaceAll [','] []
      (replaceAll ['\n'] []
        (replaceAll ['.'] [] (text.map transChar))) = _
    rw [replaceAll_single_empty, replaceAll_single_empty, replaceAll_single_empty,
        List.filter_filter, List.filter_filter]
  · intro c h1 h2
    have hc : c = Char.ofNat c.toNat := (Char.ofNat_toNat c).symm
    generalize hn : c.toNat = n at h1 h2 hc ⊢
    rw [hc]
    interval_cases n <;> decide
  · intro c hc
    have htab : upper_tab.zip lower_tab =
        [('A','a'),('B','b'),('C','c'),('D','d'),('E','e'),('F','f'),('G','g'),
         ('H','h'),('I','i'),('J','j'),('K','k'),('L','l'),('M','m'),('N','n'),
         ('O','o'),('P','p'),('Q','q'),('R','r'),('S','s'),('T','t'),('U','u'),
         ('V','v'),('W','w'),('X','x'),('Y','y'),('Z','z')] := rfl
    have hnone : alookup (upper_tab.zip lower_tab) c = none := by
      apply alookup_eq_none
      intro kv hkv hceq
      rw [htab] at hkv
      fin_cases hkv <;> (subst hceq; exact absurd hc (by decide))
    unfold transChar
    rw [hnone]

/-- Closed witness for C6 at concrete characters and the spec's example. -/
theorem C6_preprocessor_witness :
    _preprocess_eng (str "Hello,") = str "hello" ∧
    (transChar 'Q').toNat = 'Q'.toNat + 32 ∧
    transChar '!' = '!' :=
  ⟨C6_preprocessor.2.2.2.1,
   C6_preprocessor.2.1 'Q' (by decide) (by decide),
   C6_preprocessor.2.2.1 '!' (by decide)⟩

/-- Does `p` occur as a contiguous substring of `t`? -/
def hasSub (p : PyStr) : PyStr → Bool
  | [] => p.isPrefixOf []
  | c :: cs => p.isPrefixOf (c :: cs) || hasSub p cs

theorem replaceAll_of_not_hasSub (p r : PyStr) :
    ∀ t, hasSub p t = false → replaceAll p r t = t := by
  intro t
  induction t with
  | nil => intro _; rfl
  | cons c cs ih =>
    intro h
    simp only [hasSub, Bool.or_eq_false_iff] at h
    rw [replaceAll_cons, h.1, Bool.false_and, if_neg (by simp)]
    rw [ih h.2]

theorem nil_isPrefixOf_eq (ds : PyStr) : List.isPrefixOf ([] : PyStr) ds = true := by
  cases ds <;> rfl

theorem replaceAll_head_fx (cs : PyStr)
    (h : (replaceAll ['˧', '˥'] ['2'] cs).head? = some '˥') :
    cs.head? = some '˥' := by
  cases cs with
  | nil => rw [replaceAll_nil] at h; exact absurd h (by simp)
  | cons d ds =>
    rw [replaceAll_cons] at h
    by_cases hcond :
        (List.isPrefixOf ['˧', '˥'] (d :: ds) && !(List.isEmpty ['˧', '˥'])) = true
    · rw [if_pos hcond] at h
      rw [List.singleton_append, List.head?_cons] at h
      exact absurd h (by decide)
    · rw [if_neg hcond] at h
      rw [List.head?_cons] at h
      rw [List.head?_cons]
      exact h

theorem hasSub_replaceAll_fx :
    ∀ (n : Nat) (t : PyStr), t.length ≤ n →
      hasSub ['˧', '˥'] (replaceAll ['˧', '˥'] ['2'] t) = false := by
  intro n
  induction n with
  | zero =>
    intro t ht
    have hnil : t = [] := List.length_eq_zero.mp (Nat.le_zero.mp ht)
    subst hnil
    rfl
  | succ n ih =>
    intro t ht
    cases t with
    | nil => rfl
    | cons c cs =>
      rw [replaceAll_cons,
          show (!(List.isEmpty ['˧', '˥'])) = true from rfl, Bool.and_true]
      by_cases hp : List.isPrefixOf ['˧', '˥'] (c :: cs) = true
      · rw [if_pos hp]
        rw [List.singleton_append]
        simp only [hasSub, Bool.or_eq_false_iff]
        constructor
        · rw [show List.isPrefixOf ['˧', '˥'] ('2' :: replaceAll ['˧', '˥'] ['2'] ((c :: cs).drop (List.length ['˧', '˥']))) = (('˧' == '2') && List.isPrefixOf ['˥'] (replaceAll ['˧', '˥'] ['2'] ((c :: cs).drop (List.length ['˧', '˥'])))) from rfl]
          rw [show ('˧' == '2') = false from by decide, Bool.false_and]
        · apply ih
          simp only [List.length_drop, List.length_cons]
          simp only [List.length_cons] at ht
          omega
      · rw [if_neg hp]
        have hp' : List.isPrefixOf ['˧', '˥'] (c :: cs) = false := by
          revert hp
          cases List.isPrefixOf ['˧', '˥'] (c :: cs) <;> simp
        simp only [hasSub, Bool.or_eq_false_iff]
        refine ⟨?_, ih cs (by simp only [List.length_cons] at ht; omega)⟩
        by_cases hc3 : c = '˧'
        · subst hc3
          cases hR : List.isPrefixOf ['˥'] (replaceAll ['˧', '˥'] ['2'] cs) with
          | false =>
            rw [show List.isPrefixOf ['˧', '˥'] ('˧' :: replaceAll ['˧', '˥'] ['2'] cs) = (('˧' == '˧') && List.isPrefixOf ['˥'] (replaceAll ['˧', '˥'] ['2'] cs)) from rfl]
            rw [hR, Bool.and_false]
          | true =>
            exfalso
            have hhead : (replaceAll ['˧', '˥'] ['2'] cs).head? = some '˥' := by
              cases hRl : replaceAll ['˧', '˥'] ['2'] cs with
              | nil => rw [hRl] at hR; exact absurd hR (by decide)
              | cons d ds =>
                rw [hRl] at hR
                rw [show List.isPrefixOf ['˥'] (d :: ds) = (('˥' == d) && List.isPrefixOf ([] : PyStr) ds) from rfl,
                    nil_isPrefixOf_eq ds, Bool.and_true] at hR
                rw [List.head?_cons, eq_of_beq hR]
            have hcs := replaceAll_head_fx cs hhead
            cases cs with
            | nil => exact absurd hcs (by simp)
            | cons e es =>
              rw [List.head?_cons] at hcs
              have he : e = '˥' := Option.some.inj hcs
              subst he
              rw [show List.isPrefixOf ['˧', '˥'] ('˧' :: '˥' :: es) =
                    (('˧' == '˧') && (('˥' == '˥') && List.isPrefixOf ([] : PyStr) es)) from rfl,
                  nil_isPrefixOf_eq es] at hp'
              exact absurd hp' (by decide)
        · rw [show List.isPrefixOf ['˧', '˥'] (c :: replaceAll ['˧', '˥'] ['2'] cs) = (('˧' == c) && List.isPrefixOf ['˥'] (replaceAll ['˧', '˥'] ['2'] cs)) from rfl]
          rw [show ('˧' == c) = false from beq_eq_false_iff_ne.mpr (fun he => hc3 he.symm), Bool.false_and]

/-- Applying the duplicated `("˧˥", "2")` rule a second time is a no-op:
the first pass leaves no occurrence of the pattern. -/
theorem replaceAll_dup_collapse (u : PyStr) :
    replaceAll (str "˧˥") (str "2") (replaceAll (str "˧˥") (str "2") u) =
      replaceAll (str "˧˥") (str "2") u := by
  show replaceAll ['˧', '˥'] ['2'] (replaceAll ['˧', '˥'] ['2'] u) =
    replaceAll ['˧', '˥'] ['2'] u
  exact replaceAll_of_not_hasSub _ _ _ (hasSub_replaceAll_fx u.length u (le_refl _))

/-- The jyutping replacement list exactly as the spec enumerates it: each
contour-tone digraph once, then the stop-tone pairs, then the single glyphs,
then the colon strip. -/
def jyutping_spec_replacements : List (PyStr × PyStr) :=
  [ (str "˥˧", str "1"), (str "˥˥", str "1"),
    (str "˧˥", str "2"),
    (str "˧˧", str "3"),
    (str "˨˩", str "4"), (str "˩˩", str "4"),
    (str "˩˧", str "5"), (str "˨˧", str "5"),
    (str "˨˨", str "6"),
    (str "k˥", str "k7"), (str "k˧", str "k8"), (str "k˨", str "k9"),
    (str "t˥", str "t7"), (str "t˧", str "t8"), (str "t˨", str "t9"),
    (str "p˥", str "p7"), (str "p˧", str "p8"), (str "p˨", str "p9"),
    (str "˥", str "1"), (str "˧", str "3"), (str "˨", str "6"),
    (str ":", str "") ]

/-- C4: the jyutping formatter performs exactly the spec's ordered list of
literal substring replacements — contour-tone digraphs, then stop-tone
consonant+glyph pairs, then single glyphs, finally stripping every `:`
(which acts as a character filter). -/
theorem C4_jyutping_formatter :
    (∀ txt : PyStr,
      _format_jyutping txt =
        jyutping_spec_replacements.foldl (fun t pr => replaceAll pr.1 pr.2 t) txt) ∧
    (∀ t : PyStr,
      replaceAll (str ":") (str "") t = t.filter (fun c => !(c = ':' : Bool))) := by
  constructor
  · intro txt
    show jyutping_replacements.foldl _ txt = _
    simp only [jyutping_replacements, jyutping_spec_replacements,
      List.foldl_cons, List.foldl_nil]
    rw [replaceAll_dup_collapse]
  · intro t
    show replaceAll [':'] [] t = _
    exact replaceAll_single_empty ':' t

/-- Piece emitted for a matched token: the f-string `tok/ipa/` when the
show-form flag is set, `/ipa/` otherwise. -/
def emitPiece (swf : Bool) (tok ipa : PyStr) : PyStr :=
  if swf then tok ++ '/' :: (ipa ++ ['/']) else '/' :: (ipa ++ ['/'])

/-- Candidate substrings at the cursor, lengths 1 through 6 bounded by the
remaining input (the list comprehension in `_translate_to_ipa_zh`). -/
def candidates (s : PyStr) : List PyStr :=
  (List.range 6).filterMap fun j =>
    if j + 1 ≤ s.length then some (s.take (j + 1)) else none

/-- The dictionary search over the reversed candidate list (`for cand in
reversed(candidates): if cand in ipa_dict: match = cand; break`). -/
def findMatch (d : Dict) (s : PyStr) : Option PyStr :=
  (candidates s).reverse.find? fun cand => (alookup d cand).isSome

theorem mem_candidates_length {s m : PyStr} (h : m ∈ candidates s) :
    1 ≤ m.length ∧ m.length ≤ s.length := by
  simp only [candidates, List.mem_filterMap, List.mem_range] at h
  obtain ⟨j, _, hcond⟩ := h
  by_cases hle : j + 1 ≤ s.length
  · rw [if_pos hle] at hcond
    have hm : m = s.take (j + 1) := (Option.some.inj hcond).symm
    subst hm
    rw [List.length_take]
    omega
  · rw [if_neg hle] at hcond
    exact absurd hcond (by simp)

theorem findMatch_length {d : Dict} {s m : PyStr} (h : findMatch d s = some m) :
    1 ≤ m.length ∧ m.length ≤ s.length := by
  have h' : (candidates s).reverse.find?
      (fun cand => (alookup d cand).isSome) = some m := h
  exact mem_candidates_length (List.mem_reverse.mp (List.mem_of_find?_eq_some h'))

theorem findMatch_isSome {d : Dict} {s m : PyStr} (h : findMatch d s = some m) :
    ∃ ipa, alookup d m = some ipa := by
  have h' : (candidates s).reverse.find?
      (fun cand => (alookup d cand).isSome) = some m := h
  have hp := List.find?_some h'
  simp only [Option.isSome_iff_exists] at hp
  exact hp

/-- Fuel-driven worker for the while-loop of `_translate_to_ipa_zh`:
direct single-character lookup, then the candidate search, then verbatim
copy-through; `fuel ≥ s.length` makes the fuel bound irrelevant. -/
def zhSegmentGo (d : Dict) (swf : Bool) : Nat → PyStr → PyStr
  | _, [] => []
  | 0, _ :: _ => []
  | fuel + 1, c :: rest =>
    match alookup d [c] with
    | some ipa => emitPiece swf [c] ipa ++ zhSegmentGo d swf fuel rest
    | none =>
      match findMatch d (c :: rest) with
      | some m =>
        emitPiece swf m ((alookup d m).getD []) ++
          zhSegmentGo d swf fuel ((c :: rest).drop m.length)
      | none => c :: zhSegmentGo d swf fuel rest

/-- The character-based translation loop before formatting: all emitted
pieces concatenated with no separator (`"".join(result_parts)`). -/
def zhSegment (d : Dict) (swf : Bool) (s : PyStr) : PyStr :=
  zhSegmentGo d swf s.length s

theorem zhSegmentGo_fuel (d : Dict) (swf : Bool) :
    ∀ (f1 : Nat) (s : PyStr) (f2 : Nat), s.length ≤ f1 → s.length ≤ f2 →
      zhSegmentGo d swf f1 s = zhSegmentGo d swf f2 s := by
  intro f1
  induction f1 with
  | zero =>
    intro s f2 h1 _
    have hs : s = [] := List.length_eq_zero.mp (Nat.le_zero.mp h1)
    subst hs
    cases f2 <;> rfl
  | succ n ih =>
    intro s f2 h1 h2
    cases s with
    | nil => cases f2 <;> rfl
    | cons c cs =>
      cases f2 with
      | zero => exact absurd h2 (by simp)
      | succ m =>
        simp only [List.length_cons] at h1 h2
        cases hl : alookup d [c] with
        | some ipa =>
          simp only [zhSegmentGo, hl]
          congr 1
          exact ih cs m (by omega) (by omega)
        | none =>
          cases hf : findMatch d (c :: cs) with
          | some mtc =>
            simp only [zhSegmentGo, hl, hf]
            congr 1
            have hml := findMatch_length hf
            simp only [List.length_cons] at hml
            have hlen : ((c :: cs).drop mtc.length).length ≤ cs.length := by
              simp only [List.length_drop, List.length_cons]
              omega
            exact ih _ m (by omega) (by omega)
          | none =>
            simp only [zhSegmentGo, hl, hf]
            congr 1
            exact ih cs m (by omega) (by omega)

theorem zhSegment_nil (d : Dict) (swf : Bool) : zhSegment d swf [] = [] := rfl

theorem zhSegment_direct (d : Dict) (swf : Bool) (c : Char) (rest : PyStr)
    (ipa : PyStr) (h : alookup d [c] = some ipa) :
    zhSegment d swf (c :: rest) = emitPiece swf [c] ipa ++ zhSegment d swf rest := by
  show zhSegmentGo d swf (rest.length + 1) (c :: rest) = _
  simp only [zhSegmentGo, h]
  rfl

theorem zhSegment_words (d : Dict) (swf : Bool) (c : Char) (rest m ipa : PyStr)
    (h1 : alookup d [c] = none) (h2 : findMatch d (c :: rest) = some m)
    (h3 : alookup d m = some ipa) :
    zhSegment d swf (c :: rest) =
      emitPiece swf m ipa ++ zhSegment d swf ((c :: rest).drop m.length) := by
  show zhSegmentGo d swf (rest.length + 1) (c :: rest) = _
  simp only [zhSegmentGo, h1, h2, h3, Option.getD_some]
  congr 1
  have hml := findMatch_length h2
  simp only [List.length_cons] at hml
  apply zhSegmentGo_fuel
  · simp only [List.length_drop, List.length_cons]
    omega
  · exact le_refl _

theorem zhSegment_copy (d : Dict) (swf : Bool) (c : Char) (rest : PyStr)
    (h1 : alookup d [c] = none) (h2 : findMatch d (c :: rest) = none) :
    zhSegment d swf (c :: rest) = c :: zhSegment d swf rest := by
  show zhSegmentGo d swf (rest.length + 1) (c :: rest) = _
  simp only [zhSegmentGo, h1, h2]
  rfl

/-- The spec's formulation of the longest-match search: candidate lengths 6
down to 1, bounded by the remaining input, first dictionary hit wins. -/
def searchSpec (d : Dict) (s : PyStr) : Option PyStr :=
  (([6, 5, 4, 3, 2, 1] : List Nat).filterMap fun L =>
    if L ≤ s.length then some (s.take L) else none).find? fun cand =>
      (alookup d cand).isSome

theorem candidates_reverse (s : PyStr) :
    (candidates s).reverse =
      ([6, 5, 4, 3, 2, 1] : List Nat).filterMap fun L =>
        if L ≤ s.length then some (s.take L) else none := by
  match s with
  | [] => rfl
  | [a] => rfl
  | [a, b] => rfl
  | [a, b, c] => rfl
  | [a, b, c, d] => rfl
  | [a, b, c, d, e] => rfl
  | a :: b :: c :: d :: e :: f :: rest =>
    simp only [candidates, show List.range 6 = [0, 1, 2, 3, 4, 5] from rfl]
    norm_num [List.filterMap_cons, List.length_cons]

/-- The code's reversed-candidates scan is exactly the spec's
longest-to-shortest search. -/
theorem findMatch_eq_searchSpec (d : Dict) (s : PyStr) :
    findMatch d s = searchSpec d s := by
  unfold findMatch searchSpec
  rw [candidates_reverse]

/-- C1: character-based segmentation: direct single-character lookup first
(emitting per the show-form flag), otherwise the longest-to-shortest search
over candidate lengths 1–6 advancing by the matched length, otherwise
verbatim copy-through; all pieces are concatenated with no separator. -/
theorem C1_char_segmentation (d : Dict) (swf : Bool) :
    zhSegment d swf [] = [] ∧
    (∀ (c : Char) (rest ipa : PyStr), alookup d [c] = some ipa →
      zhSegment d swf (c :: rest) = emitPiece swf [c] ipa ++ zhSegment d swf rest) ∧
    (∀ (c : Char) (rest m ipa : PyStr), alookup d [c] = none →
      searchSpec d (c :: rest) = some m → alookup d m = some ipa →
      zhSegment d swf (c :: rest) =
        emitPiece swf m ipa ++ zhSegment d swf ((c :: rest).drop m.length)) ∧
    (∀ (c : Char) (rest : PyStr), alookup d [c] = none →
      searchSpec d (c :: rest) = none →
      zhSegment d swf (c :: rest) = c :: zhSegment d swf rest) ∧
    (∀ tok ipa : PyStr, emitPiece true tok ipa = tok ++ '/' :: (ipa ++ ['/']) ∧
      emitPiece false tok ipa = '/' :: (ipa ++ ['/'])) := by
  refine ⟨zhSegment_nil d swf, ?_, ?_, ?_, fun tok ipa => ⟨rfl, rfl⟩⟩
  · exact fun c rest ipa h => zhSegment_direct d swf c rest ipa h
  · intro c rest m ipa h1 h2 h3
    exact zhSegment_words d swf c rest m ipa h1
      ((findMatch_eq_searchSpec d (c :: rest)).trans h2) h3
  · intro c rest h1 h2
    exact zhSegment_copy d swf c rest h1
      ((findMatch_eq_searchSpec d (c :: rest)).trans h2)

/-- Example dictionary for the C1 witness. -/
def exDict1 : Dict := [(str "a", str "A"), (str "bc", str "B")]

/-- Closed witness for C1: each branch of the segmentation step at a
concrete dictionary and input. -/
theorem C1_char_segmentation_witness :
    zhSegment exDict1 false ('a' :: str "bc") =
      emitPiece false ['a'] (str "A") ++ zhSegment exDict1 false (str "bc") ∧
    zhSegment exDict1 false ('b' :: str "c") =
      emitPiece false (str "bc") (str "B") ++
        zhSegment exDict1 false (('b' :: str "c").drop (str "bc").length) ∧
    zhSegment exDict1 false ('z' :: []) = 'z' :: zhSegment exDict1 false [] :=
  ⟨(C1_char_segmentation exDict1 false).2.1 'a' (str "bc") (str "A") (by decide),
   (C1_char_segmentation exDict1 false).2.2.1 'b' (str "c") (str "bc") (str "B")
     (by decide) (by decide) (by decide),
   (C1_char_segmentation exDict1 false).2.2.2.1 'z' [] (by decide) (by decide)⟩

/-- Dictionary of the spec's longest-match example: keys "a", "ab", "abc"
with distinct IPA values. -/
def exDict2 : Dict := [(str "a", str "A"), (str "ab", str "B"), (str "abc", str "C")]

/-- C2 as stated is false on the code: with "a" itself a dictionary key, the
direct single-character lookup fires before any longest-match search, so
input "abc" yields "a"'s IPA followed by the verbatim characters "bc",
not "abc"'s IPA. -/
theorem C2_counterexample :
    zhSegment exDict2 false (str "abc") = str "/A/bc" ∧
    zhSegment exDict2 false (str "abc") ≠ str "/C/" := by
  constructor
  · decide
  · decide

theorem find?_filterMap_head {α β : Type} (f : α → Option β) (p : β → Bool)
    (L : α) (Ls : List α) (x : β) (hf : f L = some x) (hp : p x = true) :
    ((L :: Ls).filterMap f).find? p = some x := by
  rw [List.filterMap_cons, hf]
  exact List.find?_cons_of_pos _ hp

/-- C2 amended: longest-match greed holds only below the direct
single-character lookup: whenever the cursor character is itself absent from
the dictionary and the 6-character candidate is a key, the 6-character match
is taken (regardless of shorter keys); for the dictionary {"a","ab","abc"}
the input "abc" instead emits "a"'s IPA and copies "b" and "c". -/
theorem C2_amended :
    zhSegment exDict2 false (str "abc") = str "/A/bc" ∧
    (∀ (d : Dict) (swf : Bool) (c : Char) (rest ipa : PyStr),
      alookup d [c] = none → 6 ≤ (c :: rest).length →
      alookup d ((c :: rest).take 6) = some ipa →
      zhSegment d swf (c :: rest) =
        emitPiece swf ((c :: rest).take 6) ipa ++ zhSegment d swf ((c :: rest).drop 6)) := by
  constructor
  · decide
  · intro d swf c rest ipa h1 h6 hkey
    have hss : searchSpec d (c :: rest) = some ((c :: rest).take 6) := by
      unfold searchSpec
      exact find?_filterMap_head _ _ 6 [5, 4, 3, 2, 1] _
        (by rw [if_pos h6]) (by rw [hkey]; rfl)
    have := zhSegment_words d swf c rest ((c :: rest).take 6) ipa h1
      ((findMatch_eq_searchSpec d (c :: rest)).trans hss) hkey
    rw [this]
    have hlen : ((c :: rest).take 6).length = 6 := by
      rw [List.length_take]
      omega
    rw [hlen]

/-- Dictionary for the C2 witness: a 2-character key and a 6-character key
starting at the same position. -/
def exDict6 : Dict := [(str "bc", str "Y"), (str "bcdefg", str "X")]

/-- Closed witness for C2's amended statement: the 6-character key wins over
the 2-character key when the first character is not itself a key. -/
theorem C2_amended_witness :
    zhSegment exDict6 false ('b' :: str "cdefg") =
      emitPiece false (('b' :: str "cdefg").take 6) (str "X") ++
        zhSegment exDict6 false (('b' :: str "cdefg").drop 6) :=
  C2_amended.2 exDict6 false 'b' (str "cdefg") (str "X")
    (by decide) (by decide) (by decide)

/-- Python's whitespace class for no-argument `str.split()`: the code points
with `str.isspace()` true (bidirectional classes WS, B, S and Unicode
category Zs) — the ASCII whitespace characters, the C1 separators
U+001C–U+001F, NEL U+0085, NBSP U+00A0, Ogham space U+1680, the figure
spaces U+2000–U+200A, the line and paragraph separators U+2028/U+2029,
narrow NBSP U+202F, medium mathematical space U+205F, and the ideographic
space U+3000. -/
def pyIsSpace (c : Char) : Bool :=
  let n := c.toNat
  (0x09 ≤ n && n ≤ 0x0d) || n == 0x20 || (0x1c ≤ n && n ≤ 0x1f) ||
  n == 0x85 || n == 0xa0 || n == 0x1680 ||
  (0x2000 ≤ n && n ≤ 0x200a) || n == 0x2028 || n == 0x2029 ||
  n == 0x202f || n == 0x205f || n == 0x3000

/-- Python `input_string.split()`: split on whitespace runs, discarding
empty tokens. -/
def pySplit (s : PyStr) : List PyStr :=
  (List.splitOnP pyIsSpace s).filter fun w => !w.isEmpty

/-- The per-token step of the word-based loop: preprocess the token, look
the preprocessed form up, emit `/ipa/` (or `tok/ipa/` with the preprocessed
token) on hit and the original, non-normalized token on miss. -/
def enToken (d : Dict) (swf : Bool) (word : PyStr) : PyStr :=
  let t_word := _preprocess_eng word
  match alookup d t_word with
  | some ipa => emitPiece swf t_word ipa
  | none => word

/-- Body of `_translate_to_ipa_en` after the dictionary is loaded: split,
skip empty tokens, translate each token, join with single spaces. -/
def en_core (d : Dict) (swf : Bool) (input_string : PyStr) : PyStr :=
  List.intercalate [' ']
    (((pySplit input_string).filter fun w => !w.isEmpty).map (enToken d swf))

/-- Error taxonomy of the dictionary store: the `ValueError` raised for a
language code missing from the registry, and unreadable backing data. -/
inductive TransError where
  | unsupportedLanguage (langCode : String) : TransError
  | dictionaryUnavailable (filename : String) : TransError
deriving DecidableEq

/-- The static language registry `source_dict`: code ↦ (display name,
dictionary file name). -/
def source_dict : List (String × String × String) :=
  [ ("yue",     "Cantonese",        "yue.json"),
    ("en_UK",   "English (UK)",     "en_UK.json"),
    ("en_US",   "English (US)",     "en_US.json"),
    ("eo",      "Esperanto",        "eo.json"),
    ("fr_FR",   "French (FR)",      "fr_FR.json"),
    ("fr_QC",   "French (QC)",      "fr_QC.json"),
    ("ja",      "Japanese",         "ja.json"),
    ("zh_hans", "Mandarin (Hans)",  "zh_hans.json"),
    ("zh_hant", "Mandarin (Hant)",  "zh_hant.json"),
    ("fa",      "Persian",          "fa.json"),
    ("es_ES",   "Spanish (ES)",     "es_ES.json"),
    ("es_MX",   "Spanish (MX)",     "es_MX.json") ]

/-- A backing store: dictionary file name ↦ parsed contents, `none` when the
file is missing or unreadable. -/
abbrev FileStore := String → Option Dict

/-- Translation of `_load_ipa_dict`: registry check first, then read the
backing file under `./data/`. -/
def _load_ipa_dict (files : FileStore) (lang_code : String) :
    Except TransError Dict :=
  match alookup source_dict lang_code with
  | none => .error (.unsupportedLanguage lang_code)
  | some (_, filename) =>
    match files filename with
    | none => .error (.dictionaryUnavailable filename)
    | some d => .ok d

/-- The formatter dispatch at the tail of `_translate_to_ipa_zh`. -/
def applyOutputFormat (output_format : String) (raw_result : PyStr) : PyStr :=
  if output_format = "num" then _format_ipa_num raw_result
  else if output_format = "jyutping" then _format_jyutping raw_result
  else _format_ipa_org raw_result

/-- Translation of `_translate_to_ipa_zh`, with the dictionary load made
explicit against a backing store. -/
def _translate_to_ipa_zh (files : FileStore) (input_string : PyStr)
    (lang_code : String) (show_word_form : Bool) (output_format : String) :
    Except TransError PyStr :=
  (_load_ipa_dict files lang_code).map fun ipa_dict =>
    applyOutputFormat output_format (zhSegment ipa_dict show_word_form input_string)

/-- Translation of `_translate_to_ipa_en`, with the dictionary load made
explicit against a backing store. -/
def _translate_to_ipa_en (files : FileStore) (input_string : PyStr)
    (lang_code : String) (show_word_form : Bool) : Except TransError PyStr :=
  (_load_ipa_dict files lang_code).map fun ipa_dict =>
    en_core ipa_dict show_word_form input_string

/-- The character-based language codes tested by `translate_to_ipa`. -/
def zh_codes : List String := ["zh_hans", "yue", "zh_hant"]

/-- Translation of `translate_to_ipa`: dispatch by language family. -/
def translate_to_ipa (files : FileStore) (input_string : PyStr)
    (lang_code : String) (show_word_form : Bool) (output_format : String) :
    Except TransError PyStr :=
  if lang_code ∈ zh_codes then
    _translate_to_ipa_zh files input_string lang_code show_word_form output_format
  else
    _translate_to_ipa_en files input_string lang_code show_word_form

/-- The `available_formats` constant of the service. -/
def available_formats : List String := ["org", "num", "Jyutping"]

/-- C3 counterexample dictionary: the mapping exactly as the claim's example
writes it, slashes included in the stored value. -/
def exDictEnSlash : Dict := [(str "hello", str "/hə.ˈloʊ/")]

/-- C3 as stated is false on the code: the hit branch wraps the stored
dictionary value in a fresh pair of slashes, so the example dictionary
value "/hə.ˈloʊ/" is emitted as "//hə.ˈloʊ//", not "/hə.ˈloʊ/". -/
theorem C3_counterexample :
    en_core exDictEnSlash false (str "hello xyz123") = str "//hə.ˈloʊ// xyz123" ∧
    en_core exDictEnSlash false (str "hello xyz123") ≠ str "/hə.ˈloʊ/ xyz123" := by
  constructor
  · decide
  · decide

/-- C3 amended: the word-based path splits on whitespace runs discarding
empty tokens, normalizes each token, emits `/ipa/` (or `token/ipa/` with the
normalized token) on hit and the original non-normalized token on miss, and
joins the pieces with single spaces; the claim's example holds once its
dictionary stores the value without surrounding slashes. -/
theorem C3_amended :
    (∀ (d : Dict) (swf : Bool) (s : PyStr),
      en_core d swf s =
        List.intercalate [' ']
          (((List.splitOnP pyIsSpace s).filter fun w => !w.isEmpty).map
            (enToken d swf))) ∧
    (∀ (d : Dict) (word ipa : PyStr), alookup d (_preprocess_eng word) = some ipa →
      enToken d false word = '/' :: (ipa ++ ['/']) ∧
      enToken d true word = _preprocess_eng word ++ '/' :: (ipa ++ ['/'])) ∧
    (∀ (d : Dict) (swf : Bool) (word : PyStr),
      alookup d (_preprocess_eng word) = none → enToken d swf word = word) ∧
    en_core [(str "hello", str "hə.ˈloʊ")] false (str "hello xyz123") =
      str "/hə.ˈloʊ/ xyz123" := by
  refine ⟨?_, ?_, ?_, by decide⟩
  · intro d swf s
    unfold en_core pySplit
    rw [List.filter_filter]
    simp only [Bool.and_self]
  · intro d word ipa h
    constructor <;> simp only [enToken, h, emitPiece, if_true, if_false, Bool.false_eq_true]
  · intro d swf word h
    simp only [enToken, h]

/-- Closed witness for C3's amended statement at a concrete dictionary. -/
theorem C3_amended_witness :
    enToken [(str "hello", str "X")] false (str "Hello,") = str "/X/" ∧
    enToken [(str "hello", str "X")] false (str "xyz123") = str "xyz123" := by
  constructor
  · exact (C3_amended.2.1 [(str "hello", str "X")] (str "Hello,") (str "X")
      (by decide)).1
  · exact C3_amended.2.2.1 [(str "hello", str "X")] false (str "xyz123") (by decide)

/-- C7: dispatch by language family: the three character-based codes invoke
the character-based path followed by the requested formatter; every other
code invokes the word-based path, where the output-format argument has no
effect on the result. -/
theorem C7_dispatch (files : FileStore) (s : PyStr) (lang_code : String)
    (swf : Bool) (fmt : String) :
    (lang_code ∈ zh_codes →
      translate_to_ipa files s lang_code swf fmt =
        (_load_ipa_dict files lang_code).map fun d =>
          applyOutputFormat fmt (zhSegment d swf s)) ∧
    (lang_code ∉ zh_codes →
      translate_to_ipa files s lang_code swf fmt =
        (_load_ipa_dict files lang_code).map (fun d => en_core d swf s) ∧
      ∀ fmt' : String,
        translate_to_ipa files s lang_code swf fmt =
          translate_to_ipa files s lang_code swf fmt') := by
  constructor
  · intro h
    simp only [translate_to_ipa, if_pos h]
    rfl
  · intro h
    constructor
    · simp only [translate_to_ipa, if_neg h]
      rfl
    · intro fmt'
      simp only [translate_to_ipa, if_neg h]

/-- Closed witness for C7 at a character-based and a word-based code. -/
theorem C7_dispatch_witness :
    translate_to_ipa (fun _ => none) (str "x") "yue" false "num" =
      ((_load_ipa_dict (fun _ => none) "yue").map fun d =>
        applyOutputFormat "num" (zhSegment d false (str "x"))) ∧
    translate_to_ipa (fun _ => none) (str "x") "en_US" false "num" =
      translate_to_ipa (fun _ => none) (str "x") "en_US" false "org" :=
  ⟨(C7_dispatch (fun _ => none) (str "x") "yue" false "num").1 (by decide),
   ((C7_dispatch (fun _ => none) (str "x") "en_US" false "num").2 (by decide)).2 "org"⟩

/-- C8: a language code absent from the registry fails with the
unsupported-language error for every backing store, input and flags: the
registry check precedes any dictionary access, so no backing data is read. -/
theorem C8_unsupported_language (files : FileStore) (s : PyStr) (swf : Bool)
    (fmt : String) (lang_code : String)
    (h : alookup source_dict lang_code = none) :
    translate_to_ipa files s lang_code swf fmt =
      .error (.unsupportedLanguage lang_code) := by
  have hload : _load_ipa_dict files lang_code =
      .error (.unsupportedLanguage lang_code) := by
    unfold _load_ipa_dict
    rw [h]
  unfold translate_to_ipa
  split
  · unfold _translate_to_ipa_zh
    rw [hload]
    rfl
  · unfold _translate_to_ipa_en
    rw [hload]
    rfl

/-- Closed witness for C8 at the spec's example code "xx_ZZ". -/
theorem C8_unsupported_language_witness :
    translate_to_ipa (fun _ => none) (str "hello") "xx_ZZ" false "org" =
      .error (.unsupportedLanguage "xx_ZZ") :=
  C8_unsupported_language (fun _ => none) (str "hello") false "org" "xx_ZZ"
    (by decide)

/-- C10: the numeric formatter is selected only by the exact string "num"
and the jyutping formatter only by exactly "jyutping"; every other string —
including "Jyutping" (the spelling advertised in `available_formats`) and
the empty default — silently selects the identity formatter. -/
theorem C10_format_selection :
    (∀ raw : PyStr, applyOutputFormat "num" raw = _format_ipa_num raw) ∧
    (∀ raw : PyStr, applyOutputFormat "jyutping" raw = _format_jyutping raw) ∧
    (∀ (fmt : String) (raw : PyStr), fmt ≠ "num" → fmt ≠ "jyutping" →
      applyOutputFormat fmt raw = raw) ∧
    (∀ raw : PyStr, applyOutputFormat "Jyutping" raw = raw) ∧
    (∀ raw : PyStr, applyOutputFormat "" raw = raw) ∧
    "Jyutping" ∈ available_formats ∧ "jyutping" ∉ available_formats := by
  refine ⟨fun raw => rfl, fun raw => rfl, ?_, fun raw => rfl, fun raw => rfl,
    by decide, by decide⟩
  intro fmt raw h1 h2
  unfold applyOutputFormat
  rw [if_neg h1, if_neg h2]
  rfl

/-- Closed witness for C10: the advertised spelling "Jyutping" does not
select the jyutping formatter. -/
theorem C10_format_selection_witness :
    applyOutputFormat "Jyutping" (str "˥") = str "˥" :=
  C10_format_selection.2.2.1 "Jyutping" (str "˥") (by decide) (by decide)

end IpaTranslator
